import Mathlib

/-!
Shallow embedding of the PR reviewer-assignment service
(`internal/service`, backed by the relational schema of `internal/db`).

The relational store (tables `teams`, `users`, `pull_requests`,
`pr_reviewers`) is modelled as a `DBState` of lists; each state-changing
operation of the service is a pure function `DBState → … → Except AppError
(DBState × result)`.  A successful call returns the committed state; an
error means the transaction rolled back, so the observable state is the
input state (the `apply…` wrappers make that explicit).  The `math/rand`
source is passed in as an oracle: a `shuffle` function for
`rand.Shuffle` (assumed to permute its argument) and an `intn` function
for `rand.Intn` (assumed to return a value below its argument).
SQL timestamps `now()` are passed in as a `Nat` parameter.
-/

deriving instance DecidableEq for Except

namespace PRService

/-- Modelled from the spec: the `internal/models` package is not in the
sources; §3/§6 of the spec fix the status domain of a pull request to the
strings OPEN and MERGED (also the `CHECK` constraint in `RunMigrations`). -/
def StatusOpen : String := "OPEN"

/-- Modelled from the spec: see `StatusOpen`. -/
def StatusMerged : String := "MERGED"

/-- A row of the `users` table (= `models.User`). -/
structure User where
  userID : String
  username : String
  teamName : String
  isActive : Bool
deriving Repr, DecidableEq

/-- Modelled from the spec: a member entry of `models.Team` (§4.1):
user id, username and active flag. -/
structure TeamMember where
  userID : String
  username : String
  isActive : Bool
deriving Repr, DecidableEq

/-- Modelled from the spec: `models.Team` (§4.1): a team name and its
member list. -/
structure Team where
  teamName : String
  members : List TeamMember
deriving Repr, DecidableEq

/-- A row of the `pull_requests` table. -/
structure PRRow where
  id : String
  name : String
  authorID : String
  status : String
  createdAt : Nat
  mergedAt : Option Nat
deriving Repr, DecidableEq

/-- Modelled from the spec: `models.PullRequest` as returned by the
service (§4.2): PR fields plus the list of assigned reviewer ids;
`createdAt`/`mergedAt` are nullable pointers in the Go model. -/
structure PullRequest where
  id : String
  name : String
  authorID : String
  status : String
  assignedReviewers : List String
  createdAt : Option Nat
  mergedAt : Option Nat
deriving Repr, DecidableEq

/-- The whole relational store. -/
structure DBState where
  teams : List String
  users : List User
  pullRequests : List PRRow
  prReviewers : List (String × String)
deriving Repr, DecidableEq

/-- `service.AppError`. -/
structure AppError where
  status : Nat
  code : String
  message : String
deriving Repr, DecidableEq

/-- `service.newAppError`. -/
def newAppError (status : Nat) (code msg : String) : AppError :=
  ⟨status, code, msg⟩

/-- `SELECT … FROM users WHERE user_id = $1`. -/
def findUser (s : DBState) (uid : String) : Option User :=
  s.users.find? (fun u => u.userID == uid)

/-- `SELECT … FROM pull_requests WHERE pull_request_id = $1`. -/
def findPR (s : DBState) (prID : String) : Option PRRow :=
  s.pullRequests.find? (fun p => p.id == prID)

/-- `Service.activeTeamMembers`: ids of users of `teamName` with
`is_active = true` and `user_id <> excludedID`. -/
def activeTeamMembers (s : DBState) (teamName excludedID : String) : List String :=
  (s.users.filter
    (fun u => u.teamName == teamName && u.isActive && u.userID != excludedID)).map
    (fun u => u.userID)

/-- Lexicographic order on strings (used for SQL `ORDER BY` on TEXT
columns); phrased on the character lists so that it evaluates, and
provably equivalent to `≤` on `String` (`strLE_iff`). -/
def strLE (a b : String) : Prop := a.data ≤ b.data

instance : DecidableRel strLE := fun a b =>
  inferInstanceAs (Decidable (a.data ≤ b.data))

instance : IsTotal String strLE := ⟨fun a b => le_total a.data b.data⟩

instance : IsTrans String strLE := ⟨fun _ _ _ hab hbc => le_trans hab hbc⟩

/-- `Service.loadReviewers`: reviewer ids of a PR, `ORDER BY user_id`. -/
def loadReviewers (s : DBState) (prID : String) : List String :=
  List.insertionSort strLE
    ((s.prReviewers.filter (fun p => p.1 == prID)).map (fun p => p.2))

/-- `pickRandom`: shuffle the candidate ids, then take at most `limit`. -/
def pickRandom (shuffle : List String → List String) (ids : List String)
    (limit : Nat) : List String :=
  if ids.length = 0 ∨ limit = 0 then []
  else
    let shuffled := shuffle ids
    if limit < ids.length then shuffled.take limit else shuffled

/-- The free function `contains` of the service package. -/
def containsId (list : List String) (target : String) : Bool :=
  list.any (fun v => v == target)

/-- The `ON CONFLICT (user_id) DO UPDATE` upsert of `CreateTeam`:
update the matching row if the user id exists, append otherwise. -/
def upsertUser (users : List User) (m : TeamMember) (teamName : String) : List User :=
  let u : User := ⟨m.userID, m.username, teamName, m.isActive⟩
  if users.any (fun v => v.userID == m.userID) then
    users.map (fun v => if v.userID == m.userID then u else v)
  else
    users ++ [u]

/-- `Service.CreateTeam`. -/
def CreateTeam (s : DBState) (team : Team) : Except AppError (DBState × Team) :=
  if s.teams.contains team.teamName then
    .error (newAppError 400 "TEAM_EXISTS" "team_name already exists")
  else
    let users := team.members.foldl (fun acc m => upsertUser acc m team.teamName) s.users
    .ok ({ s with teams := s.teams ++ [team.teamName], users := users }, team)

/-- `service.CreatePRInput`. -/
structure CreatePRInput where
  id : String
  name : String
  author : String
deriving Repr, DecidableEq

/-- `Service.CreatePullRequest`: reject duplicate PR id, look up the
author, insert the PR as OPEN, then assign up to two random active
teammates of the author (author excluded) as reviewers. -/
def CreatePullRequest (s : DBState) (input : CreatePRInput)
    (shuffle : List String → List String) (now : Nat) :
    Except AppError (DBState × PullRequest) :=
  if (findPR s input.id).isSome then
    .error (newAppError 409 "PR_EXISTS" "PR id already exists")
  else
    match findUser s input.author with
    | none => .error (newAppError 404 "NOT_FOUND" "author not found")
    | some author =>
      let row : PRRow := ⟨input.id, input.name, input.author, StatusOpen, now, none⟩
      let s1 : DBState := { s with pullRequests := s.pullRequests ++ [row] }
      let candidates := activeTeamMembers s1 author.teamName input.author
      let assignments := pickRandom shuffle candidates 2
      let s2 : DBState :=
        { s1 with prReviewers := s1.prReviewers ++ assignments.map (fun r => (input.id, r)) }
      .ok (s2, ⟨input.id, input.name, input.author, StatusOpen, assignments, some now, none⟩)

/-- `Service.MergePullRequest`: not-found error, idempotent no-op when
already MERGED, otherwise set status MERGED and
`merged_at = COALESCE(merged_at, now())`. -/
def MergePullRequest (s : DBState) (prID : String) (now : Nat) :
    Except AppError (DBState × PullRequest) :=
  match findPR s prID with
  | none => .error (newAppError 404 "NOT_FOUND" "pull request not found")
  | some row =>
    if row.status != StatusMerged then
      let newMergedAt := row.mergedAt.getD now
      let newRow : PRRow := { row with status := StatusMerged, mergedAt := some newMergedAt }
      let s1 : DBState :=
        { s with pullRequests := s.pullRequests.map (fun p => if p.id == prID then newRow else p) }
      .ok (s1, ⟨row.id, row.name, row.authorID, StatusMerged, loadReviewers s1 prID,
                some row.createdAt, some newMergedAt⟩)
    else
      .ok (s, ⟨row.id, row.name, row.authorID, row.status, loadReviewers s prID,
               some row.createdAt, row.mergedAt⟩)

/-- `Service.ReassignReviewer`: guard on PR existence, open status and
current assignment of the outgoing reviewer; draw a replacement at
random from the active members of the outgoing reviewer's team,
excluding the outgoing reviewer, everyone already assigned, and the
author; swap the assignment rows. -/
def ReassignReviewer (s : DBState) (prID oldUserID : String) (intn : Nat → Nat) :
    Except AppError (DBState × PullRequest × String) :=
  match findPR s prID with
  | none => .error (newAppError 404 "NOT_FOUND" "pull request not found")
  | some row =>
    if row.status == StatusMerged then
      .error (newAppError 409 "PR_MERGED" "cannot reassign on merged PR")
    else
      let assigned := loadReviewers s prID
      if !containsId assigned oldUserID then
        .error (newAppError 409 "NOT_ASSIGNED" "reviewer is not assigned to this PR")
      else
        match findUser s oldUserID with
        | none => .error (newAppError 404 "NOT_FOUND" "user not found")
        | some user =>
          let candidates := activeTeamMembers s user.teamName oldUserID
          let filtered := candidates.filter
            (fun i => !containsId assigned i && i != row.authorID)
          if filtered.length = 0 then
            .error (newAppError 409 "NO_CANDIDATE" "no active replacement candidate in team")
          else
            let newReviewer := filtered.getD (intn filtered.length) ""
            let s1 : DBState :=
              { s with prReviewers :=
                  (s.prReviewers.filter (fun p => !(p.1 == prID && p.2 == oldUserID)))
                    ++ [(prID, newReviewer)] }
            .ok (s1, ⟨row.id, row.name, row.authorID, row.status, loadReviewers s1 prID,
                      some row.createdAt, row.mergedAt⟩, newReviewer)

/-- `service.AssignmentStat`. -/
structure AssignmentStat where
  userID : String
  username : String
  count : Nat
deriving Repr, DecidableEq

/-- `service.Stats` (the result record). -/
structure Stats where
  totalPRs : Nat
  openPRs : Nat
  mergedPRs : Nat
  assignments : List AssignmentStat
deriving Repr, DecidableEq

/-- `ORDER BY cnt DESC, u.user_id` of the `Service.Stats` query. -/
def statLE (a b : AssignmentStat) : Prop :=
  b.count < a.count ∨ (a.count = b.count ∧ strLE a.userID b.userID)

instance : DecidableRel statLE := fun a b =>
  inferInstanceAs (Decidable (b.count < a.count ∨ (a.count = b.count ∧ strLE a.userID b.userID)))

instance : IsTotal AssignmentStat statLE :=
  ⟨fun a b => by
    unfold statLE
    rcases Nat.lt_trichotomy a.count b.count with h | h | h
    · exact Or.inr (Or.inl h)
    · rcases IsTotal.total (r := strLE) a.userID b.userID with h2 | h2
      · exact Or.inl (Or.inr ⟨h, h2⟩)
      · exact Or.inr (Or.inr ⟨h.symm, h2⟩)
    · exact Or.inl (Or.inl h)⟩

instance : IsTrans AssignmentStat statLE :=
  ⟨fun a b c hab hbc => by
    unfold statLE at *
    rcases hab with hab | ⟨hab1, hab2⟩
    · rcases hbc with hbc | ⟨hbc1, hbc2⟩
      · exact Or.inl (hbc.trans hab)
      · exact Or.inl (hbc1 ▸ hab)
    · rcases hbc with hbc | ⟨hbc1, hbc2⟩
      · exact Or.inl (hab1 ▸ hbc)
      · exact Or.inr ⟨hab1.trans hbc1, Trans.trans hab2 hbc2⟩⟩

/-- `Service.Stats`: PR counters plus the per-user assignment counts,
ordered by count descending then user id ascending. -/
def DBState.stats (s : DBState) : Stats :=
  { totalPRs := s.pullRequests.length
    openPRs := (s.pullRequests.filter (fun p => p.status == StatusOpen)).length
    mergedPRs := (s.pullRequests.filter (fun p => p.status == StatusMerged)).length
    assignments :=
      List.insertionSort statLE
        (s.users.map (fun u =>
          ⟨u.userID, u.username, (s.prReviewers.filter (fun r => r.2 == u.userID)).length⟩)) }

/-! ### Observable post-states -/

/-- Observable post-state of `ReassignReviewer`: the committed state on
success, the unchanged input state on error (`defer tx.Rollback()`). -/
def applyReassign (s : DBState) (prID oldUserID : String) (intn : Nat → Nat) : DBState :=
  match ReassignReviewer s prID oldUserID intn with
  | .ok (s1, _, _) => s1
  | .error _ => s

/-- Observable post-state of `CreateTeam`: committed state on success,
unchanged input state on error. -/
def applyCreateTeam (s : DBState) (team : Team) : DBState :=
  match CreateTeam s team with
  | .ok (s1, _) => s1
  | .error _ => s

/-! ### Concrete fixtures (used by the closed witness theorems) -/

/-- A concrete user table: a backend team of three active members and
one inactive member, plus one frontend member. -/
def wUsers : List User :=
  [⟨"u1", "alice", "backend", true⟩, ⟨"u2", "bob", "backend", true⟩,
   ⟨"u3", "carol", "backend", true⟩, ⟨"u4", "dave", "backend", false⟩,
   ⟨"u5", "erin", "frontend", true⟩]

/-- A concrete store with no pull requests yet. -/
def wState : DBState := ⟨["backend", "frontend"], wUsers, [], []⟩

/-- The row of user u1 in `wUsers`. -/
def wAuthor : User := ⟨"u1", "alice", "backend", true⟩

/-- The store `wState` with one open PR by u1, reviewed by u2 and u3. -/
def mState : DBState :=
  ⟨["backend", "frontend"], wUsers,
   [⟨"pr1", "fix", "u1", StatusOpen, 7, none⟩], [("pr1", "u3"), ("pr1", "u2")]⟩

/-- `mState` after merging pr1 at time 9. -/
def mStateM : DBState :=
  ⟨["backend", "frontend"], wUsers,
   [⟨"pr1", "fix", "u1", StatusMerged, 7, some 9⟩], [("pr1", "u3"), ("pr1", "u2")]⟩

/-- The PR value returned by merging pr1 of `mState` at time 9. -/
def mPR : PullRequest := ⟨"pr1", "fix", "u1", StatusMerged, ["u2", "u3"], some 7, some 9⟩

/-- `wUsers` extended with a sixth (active, backend) user. -/
def rUsers : List User :=
  [⟨"u1", "alice", "backend", true⟩, ⟨"u2", "bob", "backend", true⟩,
   ⟨"u3", "carol", "backend", true⟩, ⟨"u4", "dave", "backend", false⟩,
   ⟨"u5", "erin", "frontend", true⟩, ⟨"u6", "frank", "backend", true⟩]

/-- A store where reassigning u2 on pr1 succeeds (u6 is available). -/
def rState : DBState :=
  ⟨["backend", "frontend"], rUsers,
   [⟨"pr1", "fix", "u1", StatusOpen, 7, none⟩], [("pr1", "u3"), ("pr1", "u2")]⟩

/-- `rState` after reassigning u2 to u6 on pr1. -/
def rState1 : DBState :=
  ⟨["backend", "frontend"], rUsers,
   [⟨"pr1", "fix", "u1", StatusOpen, 7, none⟩], [("pr1", "u3"), ("pr1", "u6")]⟩

/-- The PR value returned by that reassignment. -/
def rPR : PullRequest := ⟨"pr1", "fix", "u1", StatusOpen, ["u3", "u6"], some 7, none⟩

/-- A member list whose team name collides with an existing team. -/
def wDupTeam : Team := ⟨"backend", [⟨"u9", "zed", true⟩]⟩

/-- A fresh team whose member list mixes the pre-existing user u2 and a
new user u9. -/
def wNewTeam : Team := ⟨"mobile", [⟨"u2", "bobby", true⟩, ⟨"u9", "zed", true⟩]⟩

/-- The scenario of §8 of the spec: a team whose only active members
are the author u1 and the single assigned reviewer u2. -/
def nState : DBState :=
  ⟨["backend"],
   [⟨"u1", "alice", "backend", true⟩, ⟨"u2", "bob", "backend", true⟩],
   [⟨"pr9", "doc", "u1", StatusOpen, 3, none⟩], [("pr9", "u2")]⟩

theorem find?_map_update (l : List PRRow) (prID : String) (row nr : PRRow)
    (hfind : l.find? (fun p => p.id == prID) = some row) (hid : nr.id = prID) :
    (l.map (fun p => if p.id == prID then nr else p)).find? (fun p => p.id == prID)
      = some nr := by
  induction l with
  | nil => simp at hfind
  | cons a tl ih =>
    by_cases h : a.id = prID
    · simp only [List.map_cons]
      rw [if_pos (by simp [h])]
      exact List.find?_cons_of_pos _ (by simp [hid])
    · rw [List.find?_cons_of_neg _ (by simp [h])] at hfind
      simp only [List.map_cons]
      rw [if_neg (by simp [h]), List.find?_cons_of_neg _ (by simp [h])]
      exact ih hfind

theorem containsId_eq_true_iff (l : List String) (t : String) :
    containsId l t = true ↔ t ∈ l := by
  simp [containsId]

theorem mem_loadReviewers_iff (s : DBState) (prID x : String) :
    x ∈ loadReviewers s prID ↔ (prID, x) ∈ s.prReviewers := by
  unfold loadReviewers
  rw [(List.perm_insertionSort _ _).mem_iff]
  simp only [List.mem_map, List.mem_filter, beq_iff_eq]
  constructor
  · rintro ⟨⟨a, b⟩, ⟨hmem, h1⟩, h2⟩
    simp only at h1 h2
    rw [← h1, ← h2]
    exact hmem
  · intro hmem
    exact ⟨(prID, x), ⟨hmem, rfl⟩, rfl⟩

theorem loadReviewers_length (s : DBState) (prID : String) :
    (loadReviewers s prID).length
      = ((s.prReviewers.filter (fun p => p.1 == prID)).map (fun p => p.2)).length :=
  (List.perm_insertionSort _ _).length_eq

theorem count_filter_delete (prID old : String) :
    ∀ R : List (String × String), R.Nodup → (prID, old) ∈ R →
      ((R.filter (fun p => !(p.1 == prID && p.2 == old))).filter
          (fun p => p.1 == prID)).length + 1
        = (R.filter (fun p => p.1 == prID)).length := by
  intro R
  induction R with
  | nil => intro _ h; simp at h
  | cons a rest ih =>
    intro hnd hmem
    rcases List.nodup_cons.mp hnd with ⟨hna, hndr⟩
    by_cases ha : a = (prID, old)
    · subst ha
      have hrest : rest.filter (fun p => !(p.1 == prID && p.2 == old)) = rest :=
        List.filter_eq_self.mpr (fun p hp => by
          have hne : p ≠ (prID, old) := fun he => hna (he ▸ hp)
          simp only [Bool.not_eq_true', Bool.and_eq_false_iff, beq_eq_false_iff_ne, ne_eq]
          by_contra hcon
          push_neg at hcon
          exact hne (Prod.ext hcon.1 hcon.2))
      have e1 : ((prID, old) :: rest).filter (fun p => !(p.1 == prID && p.2 == old)) = rest := by
        rw [List.filter_cons, if_neg (by simp)]
        exact hrest
      have e2 : ((prID, old) :: rest).filter (fun p => p.1 == prID)
          = (prID, old) :: rest.filter (fun p => p.1 == prID) := by
        rw [List.filter_cons, if_pos (by simp)]
      rw [e1, e2, List.length_cons]
    · have hmem2 : (prID, old) ∈ rest := by
        rcases List.mem_cons.mp hmem with h | h
        · exact absurd h.symm ha
        · exact h
      have hkeep : (!(a.1 == prID && a.2 == old)) = true := by
        simp only [Bool.not_eq_true', Bool.and_eq_false_iff, beq_eq_false_iff_ne, ne_eq]
        by_contra hcon
        push_neg at hcon
        exact ha (Prod.ext hcon.1 hcon.2)
      have e1 : (a :: rest).filter (fun p => !(p.1 == prID && p.2 == old))
          = a :: rest.filter (fun p => !(p.1 == prID && p.2 == old)) := by
        rw [List.filter_cons, if_pos hkeep]
      have hrec := ih hndr hmem2
      by_cases hap : a.1 = prID
      · have e2 : (a :: rest.filter (fun p => !(p.1 == prID && p.2 == old))).filter
              (fun p => p.1 == prID)
            = a :: (rest.filter (fun p => !(p.1 == prID && p.2 == old))).filter
              (fun p => p.1 == prID) := by
          rw [List.filter_cons, if_pos (by simp [hap])]
        have e3 : (a :: rest).filter (fun p => p.1 == prID)
            = a :: rest.filter (fun p => p.1 == prID) := by
          rw [List.filter_cons, if_pos (by simp [hap])]
        rw [e1, e2, e3, List.length_cons, List.length_cons]
        omega
      · have e2 : (a :: rest.filter (fun p => !(p.1 == prID && p.2 == old))).filter
              (fun p => p.1 == prID)
            = (rest.filter (fun p => !(p.1 == prID && p.2 == old))).filter
              (fun p => p.1 == prID) := by
          rw [List.filter_cons, if_neg (by simp [hap])]
        have e3 : (a :: rest).filter (fun p => p.1 == prID)
            = rest.filter (fun p => p.1 == prID) := by
          rw [List.filter_cons, if_neg (by simp [hap])]
        rw [e1, e2, e3]
        exact hrec

theorem find?_map_replace (users : List User) (uid : String) (u : User)
    (hu : (u.userID == uid) = true) :
    users.any (fun v => v.userID == uid) = true →
    (users.map (fun v => if v.userID == uid then u else v)).find?
        (fun x => x.userID == uid) = some u := by
  induction users with
  | nil => intro h; simp at h
  | cons a tl ih =>
    intro hexists
    by_cases h : a.userID = uid
    · simp only [List.map_cons]
      rw [if_pos (by simp [h])]
      exact List.find?_cons_of_pos _ hu
    · simp only [List.map_cons]
      rw [if_neg (by simp [h]), List.find?_cons_of_neg _ (by simp [h])]
      apply ih
      simp only [List.any_cons, Bool.or_eq_true] at hexists
      rcases hexists with hx | hx
      · exact absurd (by simpa using hx) h
      · exact hx

theorem find?_upsertUser_same (users : List User) (m : TeamMember) (tn : String) :
    (upsertUser users m tn).find? (fun u => u.userID == m.userID)
      = some ⟨m.userID, m.username, tn, m.isActive⟩ := by
  unfold upsertUser
  by_cases h : users.any (fun v => v.userID == m.userID) = true
  · rw [if_pos h]
    exact find?_map_replace users m.userID _ (by simp) h
  · rw [if_neg h]
    have hnone : users.find? (fun u => u.userID == m.userID) = none := by
      rw [List.find?_eq_none]
      intro x hx hc
      exact h (List.any_eq_true.mpr ⟨x, hx, hc⟩)
    rw [List.find?_append, hnone]
    simp

theorem find?_upsertUser_other (users : List User) (m : TeamMember) (tn uid : String)
    (hne : m.userID ≠ uid) :
    (upsertUser users m tn).find? (fun u => u.userID == uid)
      = users.find? (fun u => u.userID == uid) := by
  unfold upsertUser
  by_cases h : users.any (fun v => v.userID == m.userID) = true
  · rw [if_pos h]
    clear h
    induction users with
    | nil => rfl
    | cons a tl ih =>
      simp only [List.map_cons]
      by_cases ha : a.userID = m.userID
      · rw [if_pos (by simp [ha])]
        rw [List.find?_cons_of_neg _ (by simp [hne]),
            List.find?_cons_of_neg _ (by simp [ha, hne])]
        exact ih
      · rw [if_neg (by simp [ha])]
        by_cases hau : a.userID = uid
        · rw [List.find?_cons_of_pos _ (by simp [hau]),
              List.find?_cons_of_pos _ (by simp [hau])]
        · rw [List.find?_cons_of_neg _ (by simp [hau]),
              List.find?_cons_of_neg _ (by simp [hau])]
          exact ih
  · rw [if_neg h]
    rw [List.find?_append]
    have hlast : ([(⟨m.userID, m.username, tn, m.isActive⟩ : User)]).find?
        (fun u => u.userID == uid) = none := by
      rw [List.find?_cons_of_neg _ (by simp [hne]), List.find?_nil]
    cases hf : users.find? (fun u => u.userID == uid) with
    | some v => rfl
    | none => simp [hlast]

theorem foldl_upsert_find_other (tn uid : String) :
    ∀ (members : List TeamMember) (users : List User),
      (∀ m ∈ members, m.userID ≠ uid) →
      (members.foldl (fun acc m => upsertUser acc m tn) users).find?
          (fun u => u.userID == uid)
        = users.find? (fun u => u.userID == uid) := by
  intro members
  induction members with
  | nil => intro users _; rfl
  | cons x rest ih =>
    intro users hall
    simp only [List.foldl_cons]
    rw [ih (upsertUser users x tn) (fun m hm => hall m (List.mem_cons_of_mem x hm))]
    exact find?_upsertUser_other users x tn uid (hall x (List.mem_cons_self x rest))

theorem foldl_upsert_find_mem (tn : String) :
    ∀ (members : List TeamMember) (users : List User) (m : TeamMember),
      (members.map (fun m => m.userID)).Nodup → m ∈ members →
      (members.foldl (fun acc m => upsertUser acc m tn) users).find?
          (fun u => u.userID == m.userID)
        = some ⟨m.userID, m.username, tn, m.isActive⟩ := by
  intro members
  induction members with
  | nil => intro users m _ hm; simp at hm
  | cons x rest ih =>
    intro users m hnd hm
    simp only [List.map_cons, List.nodup_cons] at hnd
    rcases hnd with ⟨hx, hndr⟩
    simp only [List.foldl_cons]
    rcases List.mem_cons.mp hm with he | hmr
    · subst he
      rw [foldl_upsert_find_other tn m.userID rest (upsertUser users m tn)
        (fun m2 hm2 he2 => hx (he2 ▸ List.mem_map_of_mem (fun m3 => m3.userID) hm2))]
      exact find?_upsertUser_same users m tn
    · exact ih (upsertUser users x tn) m hndr hmr

/-- A store with one open and one merged PR, for the stats theorems. -/
def sState : DBState :=
  ⟨["backend", "frontend"], wUsers,
   [⟨"pr1", "fix", "u1", StatusOpen, 7, none⟩,
    ⟨"pr2", "doc", "u2", StatusMerged, 3, some 5⟩],
   [("pr1", "u2"), ("pr1", "u3"), ("pr2", "u2")]⟩

/-! ### Helper lemmas -/

theorem activeTeamMembers_users_only (s : DBState) (prs : List PRRow)
    (rv : List (String × String)) (tms : List String) (t e : String) :
    activeTeamMembers ⟨tms, s.users, prs, rv⟩ t e = activeTeamMembers s t e := rfl

theorem activeTeamMembers_nodup (s : DBState) (t e : String)
    (hU : (s.users.map (fun u => u.userID)).Nodup) :
    (activeTeamMembers s t e).Nodup := by
  unfold activeTeamMembers
  exact ((List.filter_sublist s.users).map (fun u => u.userID)).nodup hU

theorem activeTeamMembers_not_excluded (s : DBState) (t e : String) :
    e ∉ activeTeamMembers s t e := by
  unfold activeTeamMembers
  intro hmem
  rcases List.mem_map.mp hmem with ⟨u, hu, hid⟩
  rcases List.mem_filter.mp hu with ⟨-, hcond⟩
  simp only [Bool.and_eq_true, bne_iff_ne, ne_eq] at hcond
  exact hcond.2 hid

theorem activeTeamMembers_mem (s : DBState) (t e x : String)
    (h : x ∈ activeTeamMembers s t e) :
    ∃ u ∈ s.users, u.userID = x ∧ u.isActive = true ∧ u.teamName = t := by
  unfold activeTeamMembers at h
  rcases List.mem_map.mp h with ⟨u, hu, hid⟩
  rcases List.mem_filter.mp hu with ⟨humem, hcond⟩
  simp only [Bool.and_eq_true, beq_iff_eq] at hcond
  exact ⟨u, humem, hid, hcond.1.2, hcond.1.1⟩

theorem pickRandom_length (shuffle : List String → List String) (ids : List String)
    (limit : Nat) (hperm : (shuffle ids).Perm ids) :
    (pickRandom shuffle ids limit).length = min limit ids.length := by
  unfold pickRandom
  split
  · rename_i h
    rcases h with h | h <;> simp [h]
  · rename_i h
    push_neg at h
    split
    · rename_i hlt
      simp [List.length_take, hperm.length_eq, Nat.min_eq_left (Nat.le_of_lt hlt)]
    · rename_i hge
      push_neg at hge
      simp [hperm.length_eq, Nat.min_eq_right hge]

theorem pickRandom_subset (shuffle : List String → List String) (ids : List String)
    (limit : Nat) (hperm : (shuffle ids).Perm ids) (x : String)
    (hx : x ∈ pickRandom shuffle ids limit) : x ∈ ids := by
  unfold pickRandom at hx
  split at hx
  · simp at hx
  · split at hx
    · exact hperm.mem_iff.mp ((List.take_sublist _ _).mem hx)
    · exact hperm.mem_iff.mp hx

theorem pickRandom_nodup (shuffle : List String → List String) (ids : List String)
    (limit : Nat) (hperm : (shuffle ids).Perm ids) (hids : ids.Nodup) :
    (pickRandom shuffle ids limit).Nodup := by
  unfold pickRandom
  split
  · exact List.nodup_nil
  · have hsh : (shuffle ids).Nodup := hperm.symm.nodup hids
    split
    · exact (List.take_sublist _ _).nodup hsh
    · exact hsh

end PRService

namespace PRService

/-- C1: a successful `CreatePullRequest` (fresh PR id, existing author)
assigns exactly `min 2 (number of active teammates of the author,
author excluded)` reviewers, without duplicates, never including the
author, and every assigned reviewer is an active user of the author's
team; an empty candidate pool is not an error — the call still
succeeds, with zero reviewers. -/
theorem createPullRequest_reviewers
    (s : DBState) (input : CreatePRInput) (shuffle : List String → List String)
    (now : Nat) (author : User)
    (hperm : ∀ l, (shuffle l).Perm l)
    (hU : (s.users.map (fun u => u.userID)).Nodup)
    (hfresh : findPR s input.id = none)
    (hauthor : findUser s input.author = some author) :
    ∃ s2 pr, CreatePullRequest s input shuffle now = .ok (s2, pr) ∧
      pr.assignedReviewers.length
        = min 2 (activeTeamMembers s author.teamName input.author).length ∧
      pr.assignedReviewers.Nodup ∧
      input.author ∉ pr.assignedReviewers ∧
      ∀ x ∈ pr.assignedReviewers,
        ∃ u ∈ s.users, u.userID = x ∧ u.isActive = true ∧ u.teamName = author.teamName := by
  have hperm1 := hperm (activeTeamMembers s author.teamName input.author)
  have hok : CreatePullRequest s input shuffle now =
      .ok (⟨s.teams, s.users,
            s.pullRequests ++ [⟨input.id, input.name, input.author, StatusOpen, now, none⟩],
            s.prReviewers ++
              (pickRandom shuffle (activeTeamMembers s author.teamName input.author) 2).map
                (fun r => (input.id, r))⟩,
           ⟨input.id, input.name, input.author, StatusOpen,
            pickRandom shuffle (activeTeamMembers s author.teamName input.author) 2,
            some now, none⟩) := by
    unfold CreatePullRequest
    rw [hfresh, hauthor]
    rfl
  have hlen := pickRandom_length shuffle (activeTeamMembers s author.teamName input.author) 2 hperm1
  have hnd := pickRandom_nodup shuffle (activeTeamMembers s author.teamName input.author) 2 hperm1
    (activeTeamMembers_nodup s author.teamName input.author hU)
  have hnotin : input.author ∉
      pickRandom shuffle (activeTeamMembers s author.teamName input.author) 2 := fun hmem =>
    activeTeamMembers_not_excluded s author.teamName input.author
      (pickRandom_subset shuffle (activeTeamMembers s author.teamName input.author) 2 hperm1
        input.author hmem)
  have hmem : ∀ x ∈ pickRandom shuffle (activeTeamMembers s author.teamName input.author) 2,
      ∃ u ∈ s.users, u.userID = x ∧ u.isActive = true ∧ u.teamName = author.teamName :=
    fun x hx => activeTeamMembers_mem s author.teamName input.author x
      (pickRandom_subset shuffle (activeTeamMembers s author.teamName input.author) 2 hperm1 x hx)
  exact ⟨_, _, hok, hlen, hnd, hnotin, hmem⟩

/-- Closed witness for `createPullRequest_reviewers`: author u1 of the
concrete backend team. -/
theorem createPullRequest_reviewers_witness :
    ∃ s2 pr, CreatePullRequest wState ⟨"pr1", "fix", "u1"⟩ id 7 = .ok (s2, pr) ∧
      pr.assignedReviewers.length
        = min 2 (activeTeamMembers wState wAuthor.teamName "u1").length ∧
      pr.assignedReviewers.Nodup ∧
      "u1" ∉ pr.assignedReviewers ∧
      ∀ x ∈ pr.assignedReviewers,
        ∃ u ∈ wState.users, u.userID = x ∧ u.isActive = true ∧ u.teamName = wAuthor.teamName :=
  createPullRequest_reviewers wState ⟨"pr1", "fix", "u1"⟩ id 7 wAuthor
    (fun l => List.Perm.refl l) (by decide) (by decide) (by decide)

end PRService

namespace PRService

/-- C3: `MergePullRequest` is idempotent — if a merge call succeeds,
a second merge of the same PR succeeds, leaves the store exactly as it
was after the first call, and returns the very same PR value (in
particular the same MERGED status and the same merge timestamp, which
is set only at the first transition). -/
theorem mergePullRequest_idempotent
    (s : DBState) (prID : String) (now1 now2 : Nat) (s1 : DBState) (pr1 : PullRequest)
    (h1 : MergePullRequest s prID now1 = .ok (s1, pr1)) :
    MergePullRequest s1 prID now2 = .ok (s1, pr1) ∧ pr1.status = StatusMerged := by
  cases hfind : findPR s prID with
  | none =>
    simp only [MergePullRequest, hfind] at h1
    exact absurd h1 (by simp)
  | some row =>
    simp only [MergePullRequest, hfind] at h1
    have hf : s.pullRequests.find? (fun p => p.id == prID) = some row := hfind
    have hba := List.find?_some hf
    have hrowid : row.id = prID := by simpa using hba
    by_cases hst : row.status = StatusMerged
    · rw [if_neg (by simp [hst])] at h1
      simp only [Except.ok.injEq, Prod.mk.injEq] at h1
      obtain ⟨hs1, hpr1⟩ := h1
      subst hs1; subst hpr1
      refine ⟨?_, hst⟩
      simp only [MergePullRequest, hfind]
      rw [if_neg (by simp [hst])]
    · rw [if_pos (by simp [hst])] at h1
      simp only [Except.ok.injEq, Prod.mk.injEq] at h1
      obtain ⟨hs1, hpr1⟩ := h1
      subst hs1; subst hpr1
      have hfind2 : findPR
          { s with pullRequests := s.pullRequests.map (fun p => if p.id == prID then
              { row with status := StatusMerged, mergedAt := some (row.mergedAt.getD now1) }
            else p) } prID
          = some { row with status := StatusMerged,
                            mergedAt := some (row.mergedAt.getD now1) } :=
        find?_map_update s.pullRequests prID row _ hfind hrowid
      refine ⟨?_, rfl⟩
      simp only [MergePullRequest, hfind2]
      rw [if_neg (by simp [StatusMerged])]

/-- Closed witness for `mergePullRequest_idempotent`: merging pr1 of the
concrete store at time 9, then again at time 11. -/
theorem mergePullRequest_idempotent_witness :
    MergePullRequest mStateM "pr1" 11 = .ok (mStateM, mPR) ∧ mPR.status = StatusMerged :=
  mergePullRequest_idempotent mState "pr1" 9 11 mStateM mPR (by decide)

end PRService

namespace PRService

/-- C4: reassigning a reviewer of a PR whose status is MERGED always
fails with the PR_MERGED error, and the store is left unchanged (the
transaction rolls back). -/
theorem reassignReviewer_merged_fails
    (s : DBState) (prID oldUserID : String) (intn : Nat → Nat) (row : PRRow)
    (hfind : findPR s prID = some row)
    (hmerged : row.status = StatusMerged) :
    ReassignReviewer s prID oldUserID intn
      = .error (newAppError 409 "PR_MERGED" "cannot reassign on merged PR") ∧
    applyReassign s prID oldUserID intn = s := by
  have herr : ReassignReviewer s prID oldUserID intn
      = .error (newAppError 409 "PR_MERGED" "cannot reassign on merged PR") := by
    simp only [ReassignReviewer, hfind]
    rw [if_pos (by simp [hmerged])]
  exact ⟨herr, by simp [applyReassign, herr]⟩

/-- Closed witness for `reassignReviewer_merged_fails`: the merged pr1
of the concrete store. -/
theorem reassignReviewer_merged_fails_witness :
    ReassignReviewer mStateM "pr1" "u2" (fun _ => 0)
      = .error (newAppError 409 "PR_MERGED" "cannot reassign on merged PR") ∧
    applyReassign mStateM "pr1" "u2" (fun _ => 0) = mStateM :=
  reassignReviewer_merged_fails mStateM "pr1" "u2" (fun _ => 0)
    ⟨"pr1", "fix", "u1", StatusMerged, 7, some 9⟩ (by decide) (by decide)

/-- C5: reassigning an open PR with an `oldUserID` that is not in its
current reviewer set always fails with NOT_ASSIGNED, and the store is
left unchanged (the transaction rolls back in full). -/
theorem reassignReviewer_notAssigned_fails
    (s : DBState) (prID oldUserID : String) (intn : Nat → Nat) (row : PRRow)
    (hfind : findPR s prID = some row)
    (hopen : row.status ≠ StatusMerged)
    (hnot : oldUserID ∉ loadReviewers s prID) :
    ReassignReviewer s prID oldUserID intn
      = .error (newAppError 409 "NOT_ASSIGNED" "reviewer is not assigned to this PR") ∧
    applyReassign s prID oldUserID intn = s := by
  have hc : containsId (loadReviewers s prID) oldUserID = false := by
    simp only [containsId, List.any_eq_false]
    intro x hx
    simp only [beq_iff_eq]
    exact fun he => hnot (he ▸ hx)
  have herr : ReassignReviewer s prID oldUserID intn
      = .error (newAppError 409 "NOT_ASSIGNED" "reviewer is not assigned to this PR") := by
    simp only [ReassignReviewer, hfind]
    rw [if_neg (by simp [hopen]), if_pos (by simp [hc])]
  exact ⟨herr, by simp [applyReassign, herr]⟩

/-- Closed witness for `reassignReviewer_notAssigned_fails`: u5 is not
a reviewer of the open pr1. -/
theorem reassignReviewer_notAssigned_fails_witness :
    ReassignReviewer mState "pr1" "u5" (fun _ => 0)
      = .error (newAppError 409 "NOT_ASSIGNED" "reviewer is not assigned to this PR") ∧
    applyReassign mState "pr1" "u5" (fun _ => 0) = mState :=
  reassignReviewer_notAssigned_fails mState "pr1" "u5" (fun _ => 0)
    ⟨"pr1", "fix", "u1", StatusOpen, 7, none⟩ (by decide) (by decide) (by decide)

/-- C6: on an open PR with the outgoing reviewer currently assigned and
present in the users table, `ReassignReviewer` fails with NO_CANDIDATE
exactly when the candidate pool — the active members of the outgoing
reviewer's team, minus the outgoing reviewer, minus everyone already
assigned, minus the author — is empty. -/
theorem reassignReviewer_noCandidate_iff
    (s : DBState) (prID oldUserID : String) (intn : Nat → Nat) (row : PRRow) (user : User)
    (hfind : findPR s prID = some row)
    (hopen : row.status ≠ StatusMerged)
    (hass : oldUserID ∈ loadReviewers s prID)
    (huser : findUser s oldUserID = some user) :
    (ReassignReviewer s prID oldUserID intn
        = .error (newAppError 409 "NO_CANDIDATE" "no active replacement candidate in team"))
      ↔ (activeTeamMembers s user.teamName oldUserID).filter
          (fun i => !containsId (loadReviewers s prID) i && i != row.authorID) = [] := by
  have hc : containsId (loadReviewers s prID) oldUserID = true := by
    simp only [containsId, List.any_eq_true]
    exact ⟨oldUserID, hass, by simp⟩
  simp only [ReassignReviewer, hfind, huser]
  rw [if_neg (by simp [hopen]), if_neg (by simp [hc])]
  constructor
  · intro h
    by_contra hne
    rw [if_neg (fun hlen => hne (List.length_eq_zero.mp hlen))] at h
    exact absurd h (by simp)
  · intro h
    rw [if_pos (by simp [h])]

/-- Closed witness for `reassignReviewer_noCandidate_iff`: the spec's
scenario — only active teammates of u2 are the author u1 and u2 itself,
so reassigning u2 fails with NO_CANDIDATE. -/
theorem reassignReviewer_noCandidate_iff_witness :
    ReassignReviewer nState "pr9" "u2" (fun _ => 0)
      = .error (newAppError 409 "NO_CANDIDATE" "no active replacement candidate in team") :=
  (reassignReviewer_noCandidate_iff nState "pr9" "u2" (fun _ => 0)
    ⟨"pr9", "doc", "u1", StatusOpen, 3, none⟩ ⟨"u2", "bob", "backend", true⟩
    (by decide) (by decide) (by decide) (by decide)).mpr (by decide)

end PRService

namespace PRService

theorem reassignReviewer_ok_elim
    (s : DBState) (prID oldUserID : String) (intn : Nat → Nat)
    (s1 : DBState) (pr : PullRequest) (newR : String)
    (hok : ReassignReviewer s prID oldUserID intn = .ok (s1, pr, newR)) :
    ∃ row user,
      findPR s prID = some row ∧
      row.status ≠ StatusMerged ∧
      oldUserID ∈ loadReviewers s prID ∧
      findUser s oldUserID = some user ∧
      ((activeTeamMembers s user.teamName oldUserID).filter
          (fun i => !containsId (loadReviewers s prID) i && i != row.authorID)) ≠ [] ∧
      newR = ((activeTeamMembers s user.teamName oldUserID).filter
          (fun i => !containsId (loadReviewers s prID) i && i != row.authorID)).getD
          (intn ((activeTeamMembers s user.teamName oldUserID).filter
            (fun i => !containsId (loadReviewers s prID) i && i != row.authorID)).length) "" ∧
      s1 = { s with prReviewers :=
          (s.prReviewers.filter (fun p => !(p.1 == prID && p.2 == oldUserID)))
            ++ [(prID, newR)] } ∧
      pr = ⟨row.id, row.name, row.authorID, row.status, loadReviewers s1 prID,
            some row.createdAt, row.mergedAt⟩ := by
  cases hfind : findPR s prID with
  | none =>
    simp only [ReassignReviewer, hfind] at hok
    exact absurd hok (by simp)
  | some row =>
    simp only [ReassignReviewer, hfind] at hok
    by_cases hst : row.status = StatusMerged
    · rw [if_pos (by simp [hst])] at hok
      exact absurd hok (by simp)
    · rw [if_neg (by simp [hst])] at hok
      by_cases hass : containsId (loadReviewers s prID) oldUserID = true
      · rw [if_neg (by simp [hass])] at hok
        cases huser : findUser s oldUserID with
        | none =>
          simp only [huser] at hok
          exact absurd hok (by simp)
        | some user =>
          simp only [huser] at hok
          by_cases hf0 : ((activeTeamMembers s user.teamName oldUserID).filter
              (fun i => !containsId (loadReviewers s prID) i && i != row.authorID)).length = 0
          · rw [if_pos hf0] at hok
            exact absurd hok (by simp)
          · rw [if_neg hf0] at hok
            simp only [Except.ok.injEq, Prod.mk.injEq] at hok
            obtain ⟨hs1, hpr, hnew⟩ := hok
            subst hs1
            subst hpr
            subst hnew
            refine ⟨row, user, rfl, hst, (containsId_eq_true_iff _ _).mp hass, rfl,
              ?_, rfl, rfl, rfl⟩
            intro hnil
            rw [hnil] at hf0
            exact hf0 rfl
      · rw [if_pos (by simp [Bool.eq_false_iff.mpr hass])] at hok
        exact absurd hok (by simp)

/-- C2: any successful `ReassignReviewer` call keeps the PR's reviewer
count unchanged, and the incoming reviewer differs from the outgoing
one, is not the PR's author, was not previously assigned, and is an
active user of the outgoing reviewer's team. -/
theorem reassignReviewer_success_spec
    (s : DBState) (prID oldUserID : String) (intn : Nat → Nat)
    (s1 : DBState) (pr : PullRequest) (newR : String)
    (hintn : ∀ n, 0 < n → intn n < n)
    (hR : s.prReviewers.Nodup)
    (hok : ReassignReviewer s prID oldUserID intn = .ok (s1, pr, newR)) :
    pr.assignedReviewers.length = (loadReviewers s prID).length ∧
    newR ≠ oldUserID ∧
    newR ≠ pr.authorID ∧
    newR ∉ loadReviewers s prID ∧
    oldUserID ∉ pr.assignedReviewers ∧
    ∃ old ∈ s.users, old.userID = oldUserID ∧
      ∃ u ∈ s.users, u.userID = newR ∧ u.isActive = true ∧ u.teamName = old.teamName := by
  obtain ⟨row, user, hfind, hst, hass, huser, hfne, hnew, hs1, hpr⟩ :=
    reassignReviewer_ok_elim s prID oldUserID intn s1 pr newR hok
  have hlen0 : 0 < ((activeTeamMembers s user.teamName oldUserID).filter
      (fun i => !containsId (loadReviewers s prID) i && i != row.authorID)).length :=
    Nat.pos_of_ne_zero (fun h => hfne (List.length_eq_zero.mp h))
  have hlt := hintn _ hlen0
  have hmemf : newR ∈ (activeTeamMembers s user.teamName oldUserID).filter
      (fun i => !containsId (loadReviewers s prID) i && i != row.authorID) := by
    rw [hnew, List.getD_eq_getElem _ _ hlt]
    exact List.getElem_mem hlt
  rcases List.mem_filter.mp hmemf with ⟨hmemc, hcond⟩
  simp only [Bool.and_eq_true, Bool.not_eq_true', bne_iff_ne, ne_eq] at hcond
  have hnotass : newR ∉ loadReviewers s prID := fun hmem => by
    have hm := (containsId_eq_true_iff (loadReviewers s prID) newR).mpr hmem
    rw [hcond.1] at hm
    exact Bool.false_ne_true hm
  have hnew_ne_old : newR ≠ oldUserID := fun he =>
    activeTeamMembers_not_excluded s user.teamName oldUserID (he ▸ hmemc)
  have hold_mem : user ∈ s.users := List.mem_of_find?_eq_some huser
  have hold_id : user.userID = oldUserID := by
    have hf2 : s.users.find? (fun u => u.userID == oldUserID) = some user := huser
    have hba2 := List.find?_some hf2
    simpa using hba2
  have hcount : pr.assignedReviewers.length = (loadReviewers s prID).length := by
    rw [hpr]
    show (loadReviewers s1 prID).length = (loadReviewers s prID).length
    rw [hs1]
    rw [loadReviewers_length, loadReviewers_length]
    simp only [List.length_map]
    have hmemold : (prID, oldUserID) ∈ s.prReviewers :=
      (mem_loadReviewers_iff s prID oldUserID).mp hass
    have hdel := count_filter_delete prID oldUserID s.prReviewers hR hmemold
    rw [List.filter_append]
    have hsingle : ([(prID, newR)].filter (fun p => p.1 == prID)) = [(prID, newR)] := by
      simp
    rw [hsingle, List.length_append]
    simp only [List.length_singleton]
    omega
  have hold_gone : oldUserID ∉ pr.assignedReviewers := by
    rw [hpr]
    show oldUserID ∉ loadReviewers s1 prID
    intro hmem
    have hmem2 := (mem_loadReviewers_iff s1 prID oldUserID).mp hmem
    rw [hs1] at hmem2
    rcases List.mem_append.mp hmem2 with h | h
    · rcases List.mem_filter.mp h with ⟨-, hcondd⟩
      simp at hcondd
    · simp only [List.mem_singleton, Prod.mk.injEq] at h
      exact hnew_ne_old h.2.symm
  refine ⟨hcount, hnew_ne_old, ?_, hnotass, hold_gone, user, hold_mem, hold_id, ?_⟩
  · rw [hpr]
    exact hcond.2
  · rcases activeTeamMembers_mem s user.teamName oldUserID newR hmemc with ⟨u, hu, hid, hact, hteam⟩
    exact ⟨u, hu, hid, hact, hteam⟩

end PRService

namespace PRService

/-- Closed witness for `reassignReviewer_success_spec`: reassigning u2
on pr1 of the concrete store replaces it by u6. -/
theorem reassignReviewer_success_spec_witness :
    rPR.assignedReviewers.length = (loadReviewers rState "pr1").length ∧
    "u6" ≠ "u2" ∧
    "u6" ≠ rPR.authorID ∧
    "u6" ∉ loadReviewers rState "pr1" ∧
    "u2" ∉ rPR.assignedReviewers ∧
    ∃ old ∈ rState.users, old.userID = "u2" ∧
      ∃ u ∈ rState.users, u.userID = "u6" ∧ u.isActive = true ∧ u.teamName = old.teamName :=
  reassignReviewer_success_spec rState "pr1" "u2" (fun _ => 0) rState1 rPR "u6"
    (fun _ h => h) (by decide) (by decide)

end PRService

namespace PRService

/-- C7: `CreateTeam` fails with TEAM_EXISTS whenever the team name is
already taken, leaving the store (in particular every existing user)
unmodified; with a fresh name it records the team and upserts every
listed member keyed on user id — the member's id now maps to exactly
the new username/team/active values, whether the id existed before or
not — while users with ids not in the member list are untouched. -/
theorem createTeam_spec (s : DBState) (team : Team)
    (hnd : (team.members.map (fun m => m.userID)).Nodup) :
    (team.teamName ∈ s.teams →
      CreateTeam s team = .error (newAppError 400 "TEAM_EXISTS" "team_name already exists") ∧
      applyCreateTeam s team = s) ∧
    (team.teamName ∉ s.teams →
      ∃ s1, CreateTeam s team = .ok (s1, team) ∧
        (∀ m ∈ team.members,
          findUser s1 m.userID = some ⟨m.userID, m.username, team.teamName, m.isActive⟩) ∧
        (∀ uid, (∀ m ∈ team.members, m.userID ≠ uid) →
          findUser s1 uid = findUser s uid)) := by
  constructor
  · intro hmem
    have herr : CreateTeam s team
        = .error (newAppError 400 "TEAM_EXISTS" "team_name already exists") := by
      unfold CreateTeam
      rw [if_pos (by simpa using hmem)]
    exact ⟨herr, by simp [applyCreateTeam, herr]⟩
  · intro hmem
    have hok : CreateTeam s team = .ok
        (({ s with
            teams := s.teams ++ [team.teamName]
            users := team.members.foldl
              (fun acc m => upsertUser acc m team.teamName) s.users } : DBState), team) := by
      unfold CreateTeam
      rw [if_neg (by simpa using hmem)]
    refine ⟨_, hok, ?_, ?_⟩
    · intro m hm
      exact foldl_upsert_find_mem team.teamName team.members s.users m hnd hm
    · intro uid hall
      exact foldl_upsert_find_other team.teamName uid team.members s.users hall

/-- Closed witness for `createTeam_spec`: re-creating "backend" fails
and changes nothing; creating "mobile" with the existing u2 and the new
u9 succeeds. -/
theorem createTeam_spec_witness :
    (CreateTeam wState wDupTeam
        = .error (newAppError 400 "TEAM_EXISTS" "team_name already exists") ∧
      applyCreateTeam wState wDupTeam = wState) ∧
    (∃ s1, CreateTeam wState wNewTeam = .ok (s1, wNewTeam) ∧
      (∀ m ∈ wNewTeam.members,
        findUser s1 m.userID = some ⟨m.userID, m.username, wNewTeam.teamName, m.isActive⟩) ∧
      (∀ uid, (∀ m ∈ wNewTeam.members, m.userID ≠ uid) →
        findUser s1 uid = findUser wState uid)) :=
  ⟨(createTeam_spec wState wDupTeam (by decide)).1 (by decide),
   (createTeam_spec wState wNewTeam (by decide)).2 (by decide)⟩

end PRService

namespace PRService

theorem strLE_iff (a b : String) : strLE a b ↔ a ≤ b :=
  Iff.symm String.le_iff_toList_le

theorem loadReviewers_sorted (s : DBState) (prID : String) :
    List.Sorted (· ≤ ·) (loadReviewers s prID) :=
  (List.sorted_insertionSort strLE _).imp (fun h => (strLE_iff _ _).mp h)

theorem count_rows_eq_count_prs (R : List (String × String)) (prs : List PRRow) (uid : String)
    (hR : R.Nodup) (hFK : ∀ r ∈ R, ∃ p ∈ prs, p.id = r.1)
    (hP : (prs.map (fun p => p.id)).Nodup) :
    (R.filter (fun r => r.2 == uid)).length
      = (prs.filter (fun p => (p.id, uid) ∈ R)).length := by
  have hAnd : ((R.filter (fun r => r.2 == uid)).map (fun r => r.1)).Nodup := by
    apply List.Nodup.map_on
    · intro x hx y hy hxy
      rcases List.mem_filter.mp hx with ⟨-, hx2⟩
      rcases List.mem_filter.mp hy with ⟨-, hy2⟩
      have ex : x.2 = uid := by simpa using hx2
      have ey : y.2 = uid := by simpa using hy2
      exact Prod.ext hxy (ex.trans ey.symm)
    · exact (List.filter_sublist R).nodup hR
  have hBnd : ((prs.filter (fun p => (p.id, uid) ∈ R)).map (fun p => p.id)).Nodup :=
    ((List.filter_sublist prs).map (fun p => p.id)).nodup hP
  have hmemiff : ∀ x, x ∈ (R.filter (fun r => r.2 == uid)).map (fun r => r.1)
      ↔ x ∈ (prs.filter (fun p => (p.id, uid) ∈ R)).map (fun p => p.id) := by
    intro x
    constructor
    · intro hx
      rcases List.mem_map.mp hx with ⟨r, hrmem, hr1⟩
      rcases List.mem_filter.mp hrmem with ⟨hrR, hr2⟩
      have er2 : r.2 = uid := by simpa using hr2
      rcases hFK r hrR with ⟨p, hp, hpid⟩
      apply List.mem_map.mpr
      refine ⟨p, List.mem_filter.mpr ⟨hp, ?_⟩, hpid.trans hr1⟩
      simp only [decide_eq_true_eq]
      rw [hpid, ← er2, Prod.mk.eta]
      exact hrR
    · intro hx
      rcases List.mem_map.mp hx with ⟨p, hpmem, hpid⟩
      rcases List.mem_filter.mp hpmem with ⟨-, hpR⟩
      have hpR2 : (p.id, uid) ∈ R := by simpa using hpR
      apply List.mem_map.mpr
      exact ⟨(p.id, uid), List.mem_filter.mpr ⟨hpR2, by simp⟩, hpid⟩
  have hperm := (List.perm_ext_iff_of_nodup hAnd hBnd).mpr hmemiff
  simpa using hperm.length_eq

/-- C8: `Stats` reports the total/open/merged PR counts, and the
assignment list has one entry per user whose count is the number of
pull requests that user currently reviews, sorted by count descending
and by user id ascending among equal counts. -/
theorem stats_spec (s : DBState)
    (hR : s.prReviewers.Nodup)
    (hFK : ∀ r ∈ s.prReviewers, ∃ p ∈ s.pullRequests, p.id = r.1)
    (hP : (s.pullRequests.map (fun p => p.id)).Nodup) :
    (s.stats).totalPRs = s.pullRequests.length ∧
    (s.stats).openPRs = (s.pullRequests.filter (fun p => p.status == StatusOpen)).length ∧
    (s.stats).mergedPRs = (s.pullRequests.filter (fun p => p.status == StatusMerged)).length ∧
    (∀ a ∈ (s.stats).assignments,
      a.count = (s.pullRequests.filter (fun p => (p.id, a.userID) ∈ s.prReviewers)).length) ∧
    (∀ u ∈ s.users, ∃ a ∈ (s.stats).assignments,
      a.userID = u.userID ∧ a.username = u.username) ∧
    List.Sorted (fun a b : AssignmentStat =>
      b.count < a.count ∨ (a.count = b.count ∧ a.userID ≤ b.userID)) (s.stats).assignments := by
  refine ⟨rfl, rfl, rfl, ?_, ?_, ?_⟩
  · intro a ha
    have hmem : a ∈ s.users.map (fun u =>
        (⟨u.userID, u.username,
          (s.prReviewers.filter (fun r => r.2 == u.userID)).length⟩ : AssignmentStat)) :=
      (List.perm_insertionSort statLE _).mem_iff.mp ha
    rcases List.mem_map.mp hmem with ⟨u, hu, hau⟩
    subst hau
    exact count_rows_eq_count_prs s.prReviewers s.pullRequests u.userID hR hFK hP
  · intro u hu
    refine ⟨⟨u.userID, u.username,
      (s.prReviewers.filter (fun r => r.2 == u.userID)).length⟩, ?_, rfl, rfl⟩
    exact (List.perm_insertionSort statLE _).mem_iff.mpr
      (List.mem_map_of_mem _ hu)
  · exact (List.sorted_insertionSort statLE _).imp
      (fun hab => hab.imp (fun h => h) (fun h => ⟨h.1, (strLE_iff _ _).mp h.2⟩))

/-- Closed witness for `stats_spec`: the concrete two-PR store. -/
theorem stats_spec_witness :
    (sState.stats).totalPRs = sState.pullRequests.length ∧
    (sState.stats).openPRs
      = (sState.pullRequests.filter (fun p => p.status == StatusOpen)).length ∧
    (sState.stats).mergedPRs
      = (sState.pullRequests.filter (fun p => p.status == StatusMerged)).length ∧
    (∀ a ∈ (sState.stats).assignments,
      a.count = (sState.pullRequests.filter (fun p => (p.id, a.userID) ∈ sState.prReviewers)).length) ∧
    (∀ u ∈ sState.users, ∃ a ∈ (sState.stats).assignments,
      a.userID = u.userID ∧ a.username = u.username) ∧
    List.Sorted (fun a b : AssignmentStat =>
      b.count < a.count ∨ (a.count = b.count ∧ a.userID ≤ b.userID)) (sState.stats).assignments :=
  stats_spec sState (by decide) (by decide) (by decide)

theorem length_filter_status :
    ∀ l : List PRRow, (∀ p ∈ l, p.status = StatusOpen ∨ p.status = StatusMerged) →
      l.length = (l.filter (fun p => p.status == StatusOpen)).length
        + (l.filter (fun p => p.status == StatusMerged)).length := by
  intro l
  induction l with
  | nil => intro _; rfl
  | cons a tl ih =>
    intro hall
    have htl := ih (fun p hp => hall p (List.mem_cons_of_mem a hp))
    rcases hall a (List.mem_cons_self a tl) with ha | ha
    · rw [List.filter_cons, if_pos (by simp [ha]),
          List.filter_cons, if_neg (by rw [ha]; decide)]
      simp only [List.length_cons]
      omega
    · rw [List.filter_cons, if_neg (by rw [ha]; decide),
          List.filter_cons, if_pos (by simp [ha])]
      simp only [List.length_cons]
      omega

/-- C9: since every PR row's status is OPEN or MERGED (the schema CHECK
constraint), `Stats` always reports `total = open + merged`. -/
theorem stats_total_partition (s : DBState)
    (hstatus : ∀ p ∈ s.pullRequests, p.status = StatusOpen ∨ p.status = StatusMerged) :
    (s.stats).totalPRs = (s.stats).openPRs + (s.stats).mergedPRs :=
  length_filter_status s.pullRequests hstatus

/-- Closed witness for `stats_total_partition`. -/
theorem stats_total_partition_witness :
    (sState.stats).totalPRs = (sState.stats).openPRs + (sState.stats).mergedPRs :=
  stats_total_partition sState (by decide)

theorem mergePullRequest_ok_reviewers
    (s : DBState) (prID : String) (now : Nat) (s1 : DBState) (pr : PullRequest)
    (hok : MergePullRequest s prID now = .ok (s1, pr)) :
    pr.assignedReviewers = loadReviewers s1 prID := by
  cases hfind : findPR s prID with
  | none =>
    simp only [MergePullRequest, hfind] at hok
    exact absurd hok (by simp)
  | some row =>
    simp only [MergePullRequest, hfind] at hok
    by_cases hst : row.status = StatusMerged
    · rw [if_neg (by simp [hst])] at hok
      simp only [Except.ok.injEq, Prod.mk.injEq] at hok
      obtain ⟨hs1, hpr⟩ := hok
      subst hs1; subst hpr
      rfl
    · rw [if_pos (by simp [hst])] at hok
      simp only [Except.ok.injEq, Prod.mk.injEq] at hok
      obtain ⟨hs1, hpr⟩ := hok
      subst hs1; subst hpr
      rfl

/-- C10: the reviewer list inside the PR returned by a successful
`MergePullRequest` or `ReassignReviewer` is always sorted ascending by
user id (it is re-read with `ORDER BY user_id`), whereas
`CreatePullRequest` returns the reviewers in random selection order —
a permutation-shuffle exists for which the returned list is unsorted. -/
theorem returned_reviewers_sorted :
    (∀ s prID now s1 pr, MergePullRequest s prID now = .ok (s1, pr) →
      List.Sorted (· ≤ ·) pr.assignedReviewers) ∧
    (∀ s prID oldUserID intn s1 pr newR,
      ReassignReviewer s prID oldUserID intn = .ok (s1, pr, newR) →
      List.Sorted (· ≤ ·) pr.assignedReviewers) ∧
    (∃ s input shuffle now s2 pr,
      (∀ l : List String, (shuffle l).Perm l) ∧
      CreatePullRequest s input shuffle now = .ok (s2, pr) ∧
      ¬ List.Sorted (· ≤ ·) pr.assignedReviewers) := by
  refine ⟨?_, ?_, ?_⟩
  · intro s prID now s1 pr hok
    rw [mergePullRequest_ok_reviewers s prID now s1 pr hok]
    exact loadReviewers_sorted s1 prID
  · intro s prID oldUserID intn s1 pr newR hok
    obtain ⟨row, user, -, -, -, -, -, -, -, hpr⟩ :=
      reassignReviewer_ok_elim s prID oldUserID intn s1 pr newR hok
    rw [hpr]
    exact loadReviewers_sorted s1 prID
  · refine ⟨wState, ⟨"pr1", "fix", "u1"⟩, List.reverse, 7,
      ⟨["backend", "frontend"], wUsers,
        [⟨"pr1", "fix", "u1", StatusOpen, 7, none⟩], [("pr1", "u3"), ("pr1", "u2")]⟩,
      ⟨"pr1", "fix", "u1", StatusOpen, ["u3", "u2"], some 7, none⟩,
      (fun l => l.reverse_perm), by decide, ?_⟩
    intro hs
    have h2 := List.rel_of_sorted_cons hs "u2" (by simp)
    rw [String.le_iff_toList_le] at h2
    exact absurd h2 (by decide)

/-- Closed witness for `returned_reviewers_sorted`: concrete merge and
reassignment results. -/
theorem returned_reviewers_sorted_witness :
    List.Sorted (· ≤ ·) mPR.assignedReviewers ∧
    List.Sorted (· ≤ ·) rPR.assignedReviewers :=
  ⟨returned_reviewers_sorted.1 mState "pr1" 9 mStateM mPR (by decide),
   returned_reviewers_sorted.2.1 rState "pr1" "u2" (fun _ => 0) rState1 rPR "u6" (by decide)⟩

end PRService
